import Mathlib

/-!
Shallow embedding of the blogicum blog application core
(src/blogicum/blog/views.py): the visibility policy, the listing
assemblers and the mutation handlers for posts and comments.

The entity records (User, Category, Post, Comment) are modelled from the
spec, since the models module and the auth collaborator are not part of
the source tree; every handler below is translated from the view classes
in views.py. Time is an abstract integer clock passed explicitly where
the code calls timezone.now(). The requester identity is an
Option Nat user id: none stands for the anonymous user, which Django
represents as AnonymousUser and which never compares equal to a stored
User row.
-/

namespace Blogicum

/-- Modelled from the spec: the User entity of the external auth
collaborator (identity with a unique username); its source is not under
src. -/
structure User where
  id : Nat
  username : String
  deriving Repr, DecidableEq

/-- Modelled from the spec: the Category entity (unique slug, published
flag); the models module is not under src. -/
structure Category where
  id : Nat
  slug : String
  is_published : Bool
  deriving Repr, DecidableEq

/-- Modelled from the spec: the Post entity (title, body text,
publication timestamp, published flag, author FK, optional category FK,
optional location FK); the models module is not under src. Foreign keys
are stored as ids; an absent category is none. -/
structure Post where
  id : Nat
  title : String
  text : String
  author : Nat
  pub_date : Int
  is_published : Bool
  category : Option Nat
  location : Option Nat
  deriving Repr, DecidableEq

/-- Modelled from the spec: the Comment entity (body text, creation
timestamp, FK to the owning post and to the author); the models module
is not under src. -/
structure Comment where
  id : Nat
  post : Nat
  author : Nat
  text : String
  created_at : Int
  deriving Repr, DecidableEq

/-- The relational store behind the ORM: one list per entity table. -/
structure Store where
  users : List User
  categories : List Category
  posts : List Post
  comments : List Comment
  deriving Repr, DecidableEq

/-- Singular named routes of the blog URL configuration, the possible
redirect targets of the handlers in views.py. -/
inductive Url where
  | index
  | postDetail (post_id : Nat)
  | profile (username : String)
  | login
  deriving Repr, DecidableEq

/-- Outcome of a mutation request: a redirect on success or soft denial,
Http404, PermissionDenied, or an unhandled exception. -/
inductive Response where
  | redirect (u : Url)
  | notFound
  | forbidden
  | error
  deriving Repr, DecidableEq

/-- Outcome of the post detail request: the rendered post, Http404,
PermissionDenied, or an unhandled exception such as an attribute error
on a null foreign key. -/
inductive DetailResult where
  | found (p : Post)
  | notFound
  | forbidden
  | error
  deriving Repr, DecidableEq

/-- ORM primary key lookup of a post, as in get_object_or_404(Post, id=...). -/
def findPost (s : Store) (pid : Nat) : Option Post :=
  s.posts.find? (fun p => p.id == pid)

/-- ORM primary key lookup of a comment, as in get_object_or_404(Comment, id=...). -/
def findComment (s : Store) (cid : Nat) : Option Comment :=
  s.comments.find? (fun c => c.id == cid)

/-- ORM primary key lookup of a category. -/
def findCategory (s : Store) (cid : Nat) : Option Category :=
  s.categories.find? (fun c => c.id == cid)

/-- ORM lookup of a user by username, as in get_object_or_404(User, username=...). -/
def findUser (s : Store) (username : String) : Option User :=
  s.users.find? (fun u => u.username == username)

/-- Count of the related Comment rows of a post, the aggregate behind
annotate(comment_count=Count(..)). -/
def commentCount (s : Store) (pid : Nat) : Nat :=
  (s.comments.filter (fun c => c.post == pid)).length

/-- Resolution of the category FK of a post: none when the FK is null or
dangling. -/
def categoryOf (s : Store) (p : Post) : Option Category :=
  p.category.bind (findCategory s)

/-- Join condition category__is_published=True of the listing filters:
a row with a null category FK is dropped by the inner join. -/
def categoryIsPublished (s : Store) (p : Post) : Bool :=
  match categoryOf s p with
  | none => false
  | some c => c.is_published

/-- Comparison used by order_by(pub_date descending). -/
def pubDateDesc (a b : Post) : Bool :=
  decide (b.pub_date ≤ a.pub_date)

/-- Page n (counted from 1) of a listing with the given page size, as
computed by the stateless paginator. -/
def paginate (per : Nat) (page : Nat) (l : List α) : List α :=
  (l.drop ((page - 1) * per)).take per

/-- Page size of every listing view in views.py (paginate_by = 10). -/
def paginateBy : Nat := 10

/-- PostListView.get_queryset: the global feed. Filter the published
posts whose pub_date has been reached and whose category is published,
order by pub_date descending, and annotate each post with its comment
count. -/
def postListQueryset (s : Store) (now : Int) : List (Post × Nat) :=
  ((s.posts.filter (fun p =>
      p.is_published && decide (p.pub_date ≤ now) && categoryIsPublished s p)).mergeSort
    pubDateDesc).map (fun p => (p, commentCount s p.id))

/-- ProfileView.get_queryset: look up the profile user by username (404
when absent), then every post of that author with no publication filter,
annotated with comment counts and ordered by pub_date descending. The
handler receives the request but the queryset never consults the
requester identity. -/
def profileQueryset (s : Store) (_requester : Option Nat) (username : String) :
    Option (User × List (Post × Nat)) :=
  match findUser s username with
  | none => none
  | some u =>
    some (u, (((s.posts.filter (fun p => p.author == u.id)).map
        (fun p => (p, commentCount s p.id))).mergeSort
      (fun a b => pubDateDesc a.1 b.1)))

/-- CategoryPostsView.get_queryset: look up the category by slug with
is_published=True in the lookup itself (404 when no published category
carries the slug), then the published, reached posts of that category,
ordered by pub_date descending, annotated, and finally the redundant
filter on category__is_published. -/
def categoryPostsQueryset (s : Store) (now : Int) (slug : String) :
    Option (Category × List (Post × Nat)) :=
  match s.categories.find? (fun c => c.slug == slug && c.is_published) with
  | none => none
  | some cat =>
    some (cat, (((s.posts.filter (fun p =>
        p.is_published && decide (p.pub_date ≤ now) && p.category == some cat.id)).mergeSort
      pubDateDesc).map (fun p => (p, commentCount s p.id))).filter
        (fun pc => categoryIsPublished s pc.1))

/-- PostDetailView.get_object: fetch the post by the post_id URL kwarg
(404 when absent); return it when the requester is the author, or when
the post is published with a published category and a reached pub_date;
otherwise raise Http404. The check reads category.is_published right
after is_published, so a published post with a null category FK hits a
null dereference (AttributeError), modelled as DetailResult.error. -/
def getObject (s : Store) (now : Int) (r : Option Nat) (post_id : Nat) : DetailResult :=
  match findPost s post_id with
  | none => .notFound
  | some post =>
    if some post.author == r then .found post
    else if post.is_published then
      match categoryOf s post with
      | none => .error
      | some cat =>
        if cat.is_published then
          if post.pub_date ≤ now then .found post else .notFound
        else .notFound
    else .notFound

/-- Comment thread of the post detail context: the comments of the post
ordered by created_at ascending. -/
def commentThread (s : Store) (pid : Nat) : List Comment :=
  (s.comments.filter (fun c => c.post == pid)).mergeSort
    (fun a b => decide (a.created_at ≤ b.created_at))

/-- Modelled from the spec: the editable field set of PostForm (forms.py
is not under src) — every post attribute except the immutable author. -/
structure PostData where
  title : String
  text : String
  pub_date : Int
  is_published : Bool
  category : Option Nat
  location : Option Nat
  deriving Repr, DecidableEq

/-- Modelled from the spec: the editable field set of CommentForm
(forms.py is not under src) — the body text. -/
structure CommentData where
  text : String
  deriving Repr, DecidableEq

/-- Application of validated PostForm data to a post row; the author FK
is never touched. -/
def applyPostData (p : Post) (d : PostData) : Post :=
  { p with
    title := d.title
    text := d.text
    pub_date := d.pub_date
    is_published := d.is_published
    category := d.category
    location := d.location }

/-- Store after an UpdateView save of PostForm data into the row with
the given primary key. -/
def updatePostIn (s : Store) (pid : Nat) (d : PostData) : Store :=
  { s with posts := s.posts.map (fun p => if p.id == pid then applyPostData p d else p) }

/-- Store after an UpdateView save of CommentForm data into the row with
the given primary key. -/
def updateCommentIn (s : Store) (cid : Nat) (d : CommentData) : Store :=
  { s with comments := s.comments.map (fun c =>
      if c.id == cid then { c with text := d.text } else c) }

/-- Store after a DeleteView delete of the post row with the given
primary key. -/
def removePost (s : Store) (pid : Nat) : Store :=
  { s with posts := s.posts.filter (fun p => !(p.id == pid)) }

/-- Store after a DeleteView delete of the comment row with the given
primary key. -/
def removeComment (s : Store) (cid : Nat) : Store :=
  { s with comments := s.comments.filter (fun c => !(c.id == cid)) }

/-- PostUpdateView (no LoginRequiredMixin): dispatch loads the post via
get_object (Http404 when absent), and when the requester is not the
authenticated author it redirects to the post detail route of the pk URL
kwarg without saving; the author path saves the form and redirects to
the detail route of the object pk. -/
def postUpdate (s : Store) (pk : Nat) (r : Option Nat) (d : PostData) : Response × Store :=
  match findPost s pk with
  | none => (.notFound, s)
  | some post =>
    if r == some post.author then
      (.redirect (.postDetail post.id), updatePostIn s pk d)
    else
      (.redirect (.postDetail pk), s)

/-- PostDeleteView: LoginRequiredMixin sends the anonymous requester to
the login route; get_queryset restricts the candidate rows to the posts
authored by the requester, so the pk lookup raises Http404 for any other
post; on success the post is deleted and success_url is the global
feed. -/
def postDelete (s : Store) (post_id : Nat) (r : Option Nat) : Response × Store :=
  match r with
  | none => (.redirect .login, s)
  | some u =>
    match (s.posts.filter (fun p => p.author == u)).find? (fun p => p.id == post_id) with
    | none => (.notFound, s)
    | some post => (.redirect .index, removePost s post.id)

/-- EditCommentView.dispatch: get_object resolves the comment by the
comment_id URL kwarg alone (Http404 when absent), then raises
PermissionDenied whenever the comment author differs from the requester
— this runs before the LoginRequiredMixin check, so the anonymous
requester also receives PermissionDenied; the author path saves the form
and redirects to success_url, which is the global feed route
(blog:index). The post_id URL kwarg is never compared to the comment. -/
def editComment (s : Store) (_post_id : Nat) (comment_id : Nat) (r : Option Nat)
    (d : CommentData) : Response × Store :=
  match findComment s comment_id with
  | none => (.notFound, s)
  | some c =>
    if some c.author != r then (.forbidden, s)
    else
      match r with
      | none => (.redirect .login, s)
      | some _ => (.redirect .index, updateCommentIn s comment_id d)

/-- DeleteCommentView.dispatch: get_object resolves the comment by the
comment_id URL kwarg alone (Http404 when absent), then raises
PermissionDenied whenever the comment author differs from the requester
— before the LoginRequiredMixin check, as in EditCommentView; the author
path deletes the comment and get_success_url redirects to the post
detail route of whatever post_id the URL carried. -/
def deleteComment (s : Store) (post_id : Nat) (comment_id : Nat) (r : Option Nat) :
    Response × Store :=
  match findComment s comment_id with
  | none => (.notFound, s)
  | some c =>
    if some c.author != r then (.forbidden, s)
    else
      match r with
      | none => (.redirect .login, s)
      | some _ => (.redirect (.postDetail post_id), removeComment s comment_id)

/-! Concrete fixtures used to instantiate the theorems below. -/

/-- Sample author. -/
def sampleAlice : User := ⟨1, "alice"⟩

/-- Sample second user, never an author of sample posts. -/
def sampleBob : User := ⟨2, "bob"⟩

/-- Sample published category. -/
def sampleCategory : Category := ⟨1, "news", true⟩

/-- Sample live post by alice in the published category. -/
def samplePost : Post := ⟨1, "title", "body", 1, 0, true, some 1, none⟩

/-- Sample unpublished draft by alice. -/
def sampleDraft : Post := ⟨2, "draft", "body", 1, 5, false, some 1, none⟩

/-- Sample comment by bob on the live post. -/
def sampleComment : Comment := ⟨1, 1, 2, "hi", 0⟩

/-- Sample store with two users, one category, two posts and one comment. -/
def sampleStore : Store :=
  ⟨[sampleAlice, sampleBob], [sampleCategory], [samplePost, sampleDraft], [sampleComment]⟩

/-- Sample published post with a null category FK. -/
def uncategorizedPost : Post := ⟨3, "loose", "body", 1, 0, true, none, none⟩

/-- Sample store holding only the null-category published post. -/
def uncategorizedStore : Store := ⟨[sampleAlice], [], [uncategorizedPost], []⟩

/-! Theorems settling the claims. -/

/-- C2: for every existing post and every requester that is not its
authenticated author (the anonymous requester included), the edit
request raises no error and applies no change; it redirects to the post
detail route. -/
theorem post_update_soft_denial (s : Store) (pk : Nat) (r : Option Nat) (d : PostData)
    (p : Post) (hp : findPost s pk = some p) (hr : r ≠ some p.author) :
    postUpdate s pk r d = (.redirect (.postDetail pk), s) := by
  simp [postUpdate, hp, hr]

/-- Witness for C2: bob is not the author of the sample post, and the
edit request by bob leaves the store unchanged and redirects to the post
detail route. -/
theorem post_update_soft_denial_witness :
    postUpdate sampleStore 1 (some 2) ⟨"x", "y", 3, true, none, none⟩ =
      (.redirect (.postDetail 1), sampleStore) :=
  post_update_soft_denial sampleStore 1 (some 2) ⟨"x", "y", 3, true, none, none⟩
    samplePost (by decide) (by decide)

/-- C3: for every comment and every authenticated requester other than
the comment author, both the edit and the delete request answer
PermissionDenied and leave the store unchanged. -/
theorem comment_mutation_forbidden (s : Store) (pid cid : Nat) (u : Nat) (d : CommentData)
    (c : Comment) (hc : findComment s cid = some c) (hu : u ≠ c.author) :
    editComment s pid cid (some u) d = (.forbidden, s) ∧
      deleteComment s pid cid (some u) = (.forbidden, s) := by
  have hne : (some c.author != some u) = true := by
    simp [bne_iff_ne]
    exact fun h => hu h.symm
  constructor
  · simp [editComment, hc, hne]
  · simp [deleteComment, hc, hne]

/-- Witness for C3: alice is not the author of the sample comment, and
both mutation requests by alice are forbidden with the store
unchanged. -/
theorem comment_mutation_forbidden_witness :
    editComment sampleStore 1 1 (some 1) ⟨"new"⟩ = (.forbidden, sampleStore) ∧
      deleteComment sampleStore 1 1 (some 1) = (.forbidden, sampleStore) :=
  comment_mutation_forbidden sampleStore 1 1 1 ⟨"new"⟩ sampleComment (by decide) (by decide)

/-- C5: the claim that a direct detail request for a published post with
an absent category by a non-author yields NotFound is violated by the
code: the visibility check dereferences category.is_published on a null
FK, an unhandled AttributeError rather than Http404. Evaluation of the
embedded code at the failing input. -/
theorem missing_category_detail_crash :
    uncategorizedPost.category = none ∧
    (none : Option Nat) ≠ some uncategorizedPost.author ∧
    getObject uncategorizedStore 10 none 3 = .error ∧
    getObject uncategorizedStore 10 none 3 ≠ .notFound := by
  refine ⟨rfl, by decide, ?_, ?_⟩
  · decide
  · decide

/-- Primary key integrity for posts: two member rows with the same id
coincide when the id column is duplicate-free. -/
theorem post_eq_of_id_eq {l : List Post} (h : (l.map Post.id).Nodup)
    {a b : Post} (ha : a ∈ l) (hb : b ∈ l) (hid : a.id = b.id) : a = b :=
  List.inj_on_of_nodup_map h ha hb hid

/-- C4: the delete candidate set is restricted to the posts authored by
the requester, so an authenticated non-author gets Http404 with the
store unchanged, while the author gets a redirect to the global feed
with the post gone from the store. -/
theorem post_delete_scoping (s : Store) (pid : Nat) (u : Nat) (p : Post)
    (hids : (s.posts.map Post.id).Nodup) (hp : findPost s pid = some p) :
    (u ≠ p.author → postDelete s pid (some u) = (.notFound, s)) ∧
    (u = p.author →
      (postDelete s pid (some u)).1 = .redirect .index ∧
      ∀ q ∈ (postDelete s pid (some u)).2.posts, q.id ≠ pid) := by
  have hpmem : p ∈ s.posts := List.mem_of_find?_eq_some hp
  have hpid : p.id = pid := by simpa using List.find?_some hp
  constructor
  · intro hu
    have hnone : (s.posts.filter (fun q => q.author == u)).find?
        (fun q => q.id == pid) = none := by
      rw [List.find?_eq_none]
      intro x hx
      have hx2 := List.mem_filter.mp hx
      simp only [Bool.not_eq_true, beq_eq_false_iff_ne, ne_eq]
      intro hxid
      have hxp : x = p := post_eq_of_id_eq hids hx2.1 hpmem (hxid.trans hpid.symm)
      have hxa : x.author = u := by simpa using hx2.2
      exact hu (by rw [← hxa, hxp])
    simp [postDelete, hnone]
  · intro hu
    have hsome : ((s.posts.filter (fun q => q.author == u)).find?
        (fun q => q.id == pid)).isSome := by
      rw [List.find?_isSome]
      exact ⟨p, List.mem_filter.mpr ⟨hpmem, by simp [hu]⟩, by simp [hpid]⟩
    obtain ⟨q, hq⟩ := Option.isSome_iff_exists.mp hsome
    have hqid : q.id = pid := by simpa using List.find?_some hq
    refine ⟨by simp [postDelete, hq], ?_⟩
    intro x hx
    simp only [postDelete, hq] at hx
    have hx2 := List.mem_filter.mp hx
    have := hx2.2
    simp only [Bool.not_eq_true', beq_eq_false_iff_ne, ne_eq] at this
    rw [hqid] at this
    exact this

/-- Witness for C4: bob is authenticated and not the author of the
sample post, and the delete request by bob is Http404 with the store
unchanged. -/
theorem post_delete_scoping_witness :
    postDelete sampleStore 1 (some 2) = (.notFound, sampleStore) :=
  (post_delete_scoping sampleStore 1 2 samplePost (by decide) (by decide)).1 (by decide)

/-- Saving CommentForm data into the row with a given id rewrites the
first lookup match pointwise: the lookup after the save returns the
update of the original match. -/
theorem find_update_comment_list (cid : Nat) (d : CommentData) :
    ∀ (l : List Comment) (c : Comment),
      l.find? (fun x => x.id == cid) = some c →
      (l.map (fun x => if x.id == cid then { x with text := d.text } else x)).find?
        (fun x => x.id == cid) = some { c with text := d.text } := by
  intro l
  induction l with
  | nil => intro c h; simp at h
  | cons a t ih =>
    intro c h
    by_cases ha : (a.id == cid) = true
    · have hfind : List.find? (fun x => x.id == cid) (a :: t) = some a :=
        @List.find?_cons_of_pos _ (fun x => x.id == cid) a t ha
      rw [hfind] at h
      have hac : a = c := by injection h
      subst hac
      have hid : (({ a with text := d.text } : Comment).id == cid) = true := ha
      simp only [List.map_cons, if_pos ha]
      exact @List.find?_cons_of_pos _ (fun x => x.id == cid) _
        (t.map fun x => if (x.id == cid) = true then { x with text := d.text } else x) hid
    · have hfind : List.find? (fun x => x.id == cid) (a :: t) =
          List.find? (fun x => x.id == cid) t :=
        @List.find?_cons_of_neg _ (fun x => x.id == cid) a t ha
      rw [hfind] at h
      simp only [List.map_cons, if_neg ha]
      rw [@List.find?_cons_of_neg _ (fun x => x.id == cid) a
        (t.map fun x => if (x.id == cid) = true then { x with text := d.text } else x) ha]
      exact ih c h

/-- Applied form of the previous lemma at the store level. -/
theorem findComment_updateCommentIn (s : Store) (cid : Nat) (d : CommentData)
    (c : Comment) (hc : findComment s cid = some c) :
    findComment (updateCommentIn s cid d) cid = some { c with text := d.text } :=
  find_update_comment_list cid d s.comments c hc

/-- C9 counterexample: the sample comment belongs to post 1, its author
edits it successfully, yet the response redirects to the global feed
route and not to the detail route of the owning post: success_url of
EditCommentView is blog:index. -/
theorem comment_update_redirect_counterexample :
    findComment sampleStore 1 = some sampleComment ∧
    sampleComment.post = 1 ∧
    (editComment sampleStore 1 1 (some sampleComment.author) ⟨"new"⟩).1 =
      .redirect .index ∧
    (editComment sampleStore 1 1 (some sampleComment.author) ⟨"new"⟩).1 ≠
      .redirect (.postDetail 1) := by
  refine ⟨by decide, rfl, by decide, by decide⟩

/-- C9 amended: after a successful comment edit by the author the
changes are applied and the response redirects to the global feed
(blog:index), not to the detail route of the owning post. -/
theorem comment_update_redirects_to_index (s : Store) (pid cid : Nat) (d : CommentData)
    (c : Comment) (hc : findComment s cid = some c) :
    (editComment s pid cid (some c.author) d).1 = .redirect .index ∧
    findComment (editComment s pid cid (some c.author) d).2 cid =
      some { c with text := d.text } := by
  have hself : (some c.author != some c.author) = false := by simp
  constructor
  · simp [editComment, hc, hself]
  · have h2 : (editComment s pid cid (some c.author) d).2 = updateCommentIn s cid d := by
      simp [editComment, hc, hself]
    rw [h2]
    exact findComment_updateCommentIn s cid d c hc

/-- Witness for C9: bob edits the sample comment; the response is a
redirect to the global feed and the stored text is updated. -/
theorem comment_update_redirects_to_index_witness :
    (editComment sampleStore 1 1 (some sampleComment.author) ⟨"new"⟩).1 =
      .redirect .index ∧
    findComment (editComment sampleStore 1 1 (some sampleComment.author) ⟨"new"⟩).2 1 =
      some { sampleComment with text := "new" } :=
  comment_update_redirects_to_index sampleStore 1 1 ⟨"new"⟩ sampleComment (by decide)

/-- C10: the comment mutations resolve their target from the comment_id
URL segment alone: the edit outcome is identical under any post_id, the
delete leaves a store independent of post_id, and the delete success
redirect targets the detail route of whatever post_id the URL named
while the comment row with that comment_id is gone. -/
theorem comment_views_ignore_post_id (s : Store) (pid pid2 cid : Nat) (r : Option Nat)
    (d : CommentData) (c : Comment) (hc : findComment s cid = some c) :
    editComment s pid cid r d = editComment s pid2 cid r d ∧
    (deleteComment s pid cid r).2 = (deleteComment s pid2 cid r).2 ∧
    deleteComment s pid cid (some c.author) =
      (.redirect (.postDetail pid), removeComment s cid) ∧
    ∀ x ∈ (deleteComment s pid cid (some c.author)).2.comments, x.id ≠ cid := by
  have hself : (some c.author != some c.author) = false := by simp
  refine ⟨rfl, ?_, ?_, ?_⟩
  · unfold deleteComment
    cases findComment s cid with
    | none => rfl
    | some c2 =>
      by_cases hbr : some c2.author = r
      · subst hbr
        simp
      · have hb : (some c2.author != r) = true := bne_iff_ne.mpr hbr
        simp [hb]
  · simp [deleteComment, hc, hself]
  · intro x hx
    have h2 : (deleteComment s pid cid (some c.author)).2 = removeComment s cid := by
      simp [deleteComment, hc, hself]
    rw [h2] at hx
    have hx2 := List.mem_filter.mp hx
    have := hx2.2
    simpa using this

/-- Witness for C10: deleting the sample comment through a URL naming
post 99 redirects to the detail route of post 99, not of the owning
post 1. -/
theorem comment_views_ignore_post_id_witness :
    deleteComment sampleStore 99 1 (some sampleComment.author) =
      (.redirect (.postDetail 99), removeComment sampleStore 1) :=
  (comment_views_ignore_post_id sampleStore 99 1 1 (some sampleComment.author)
    ⟨"z"⟩ sampleComment (by decide)).2.2.1

/-- Transitivity of the descending pub_date comparison. -/
theorem pubDateDesc_trans (a b c : Post) (h1 : pubDateDesc a b = true)
    (h2 : pubDateDesc b c = true) : pubDateDesc a c = true := by
  simp only [pubDateDesc, decide_eq_true_eq] at *
  omega

/-- Totality of the descending pub_date comparison. -/
theorem pubDateDesc_total (a b : Post) : (pubDateDesc a b || pubDateDesc b a) = true := by
  simp only [pubDateDesc, Bool.or_eq_true, decide_eq_true_eq]
  omega

/-- C6: the global feed holds exactly the published posts with a reached
pub_date and a published category, ordered by pub_date descending, each
annotated with its related comment count, in pages of at most ten. -/
theorem global_feed_spec (s : Store) (now : Int) :
    (∀ p : Post, (∃ n, (p, n) ∈ postListQueryset s now) ↔
      (p ∈ s.posts ∧ p.is_published = true ∧ p.pub_date ≤ now ∧
        categoryIsPublished s p = true)) ∧
    (postListQueryset s now).Pairwise (fun a b => b.1.pub_date ≤ a.1.pub_date) ∧
    (∀ pc ∈ postListQueryset s now, pc.2 = commentCount s pc.1.id) ∧
    (∀ page, (paginate paginateBy page (postListQueryset s now)).length ≤ 10) := by
  refine ⟨?_, ?_, ?_, ?_⟩
  · intro p
    constructor
    · rintro ⟨n, hn⟩
      obtain ⟨q, hq, hpq⟩ := List.mem_map.mp hn
      have hqp : q = p := congrArg Prod.fst hpq
      subst hqp
      have hq2 := List.mem_filter.mp (List.mem_mergeSort.mp hq)
      refine ⟨hq2.1, ?_⟩
      have := hq2.2
      simp only [Bool.and_eq_true, decide_eq_true_eq] at this
      exact ⟨this.1.1, this.1.2, this.2⟩
    · rintro ⟨hmem, hpub, hdate, hcat⟩
      refine ⟨commentCount s p.id, List.mem_map.mpr ⟨p, ?_, rfl⟩⟩
      refine List.mem_mergeSort.mpr (List.mem_filter.mpr ⟨hmem, ?_⟩)
      simp only [Bool.and_eq_true, decide_eq_true_eq]
      exact ⟨⟨hpub, hdate⟩, hcat⟩
  · have hs := @List.sorted_mergeSort Post pubDateDesc pubDateDesc_trans pubDateDesc_total
      (s.posts.filter (fun p =>
        p.is_published && decide (p.pub_date ≤ now) && categoryIsPublished s p))
    rw [postListQueryset, List.pairwise_map]
    exact hs.imp (fun h => by simpa [pubDateDesc] using h)
  · intro pc hpc
    obtain ⟨q, _, hpq⟩ := List.mem_map.mp hpc
    rw [← hpq]
  · intro page
    simp [paginate, paginateBy, List.length_take]

/-- C8: the profile listing of a username holds every post of that user
regardless of publication state and no post of any other user, ordered
by pub_date descending and annotated with comment counts, and the
identity of the requester never changes the listing. -/
theorem profile_feed_spec (s : Store) (r : Option Nat) (username : String) (u : User)
    (hu : findUser s username = some u) :
    ∃ pcs, profileQueryset s r username = some (u, pcs) ∧
      (∀ p : Post, (∃ n, (p, n) ∈ pcs) ↔ (p ∈ s.posts ∧ p.author = u.id)) ∧
      pcs.Pairwise (fun a b => b.1.pub_date ≤ a.1.pub_date) ∧
      (∀ pc ∈ pcs, pc.2 = commentCount s pc.1.id) := by
  refine ⟨((s.posts.filter (fun p => p.author == u.id)).map
      (fun p => (p, commentCount s p.id))).mergeSort (fun a b => pubDateDesc a.1 b.1),
    ?_, ?_, ?_, ?_⟩
  · simp [profileQueryset, hu]
  · intro p
    constructor
    · rintro ⟨n, hn⟩
      obtain ⟨q, hq, hpq⟩ := List.mem_map.mp (List.mem_mergeSort.mp hn)
      have hqp : q = p := congrArg Prod.fst hpq
      subst hqp
      have hq2 := List.mem_filter.mp hq
      exact ⟨hq2.1, by simpa using hq2.2⟩
    · rintro ⟨hmem, hauth⟩
      refine ⟨commentCount s p.id, List.mem_mergeSort.mpr
        (List.mem_map.mpr ⟨p, List.mem_filter.mpr ⟨hmem, by simp [hauth]⟩, rfl⟩)⟩
  · have hs := @List.sorted_mergeSort (Post × Nat) (fun a b => pubDateDesc a.1 b.1)
      (fun a b c h1 h2 => pubDateDesc_trans a.1 b.1 c.1 h1 h2)
      (fun a b => pubDateDesc_total a.1 b.1)
      ((s.posts.filter (fun p => p.author == u.id)).map (fun p => (p, commentCount s p.id)))
    exact hs.imp (fun h => by simpa [pubDateDesc] using h)
  · intro pc hpc
    obtain ⟨q, _, hpq⟩ := List.mem_map.mp (List.mem_mergeSort.mp hpc)
    rw [← hpq]

/-- Witness for C8: the profile listing of alice in the sample store,
requested anonymously, holds exactly the two posts of alice (the draft
included) and nothing of bob. -/
theorem profile_feed_spec_witness :
    ∃ pcs, profileQueryset sampleStore none "alice" = some (sampleAlice, pcs) ∧
      (∀ p : Post, (∃ n, (p, n) ∈ pcs) ↔
        (p ∈ sampleStore.posts ∧ p.author = sampleAlice.id)) ∧
      pcs.Pairwise (fun a b => b.1.pub_date ≤ a.1.pub_date) ∧
      (∀ pc ∈ pcs, pc.2 = commentCount sampleStore pc.1.id) :=
  profile_feed_spec sampleStore none "alice" sampleAlice (by decide)

/-- Primary key integrity for categories: two member rows with the same
id coincide when the id column is duplicate-free. -/
theorem category_eq_of_id_eq {l : List Category} (h : (l.map Category.id).Nodup)
    {a b : Category} (ha : a ∈ l) (hb : b ∈ l) (hid : a.id = b.id) : a = b :=
  List.inj_on_of_nodup_map h ha hb hid

/-- Under primary key integrity, the FK lookup of a member category by
its own id returns that category. -/
theorem findCategory_of_mem (s : Store) (cat : Category)
    (hids : (s.categories.map Category.id).Nodup) (hmem : cat ∈ s.categories) :
    findCategory s cat.id = some cat := by
  cases h : findCategory s cat.id with
  | none =>
    unfold findCategory at h
    rw [List.find?_eq_none] at h
    exact absurd (by simp) (h cat hmem)
  | some q =>
    have hq1 : q ∈ s.categories := List.mem_of_find?_eq_some h
    have hq2 : q.id = cat.id := by simpa using List.find?_some h
    exact congrArg some (category_eq_of_id_eq hids hq1 hmem hq2)

/-- C7: the category listing is Http404 exactly when no published
category carries the slug; otherwise it returns the target category and
exactly its published posts with a reached pub_date, ordered by pub_date
descending, annotated with comment counts, in pages of at most ten. -/
theorem category_feed_spec (s : Store) (now : Int) (slug : String)
    (hids : (s.categories.map Category.id).Nodup) :
    (categoryPostsQueryset s now slug = none ↔
      ∀ c ∈ s.categories, ¬(c.slug = slug ∧ c.is_published = true)) ∧
    (∀ cat pcs, categoryPostsQueryset s now slug = some (cat, pcs) →
      cat ∈ s.categories ∧ cat.slug = slug ∧ cat.is_published = true ∧
      (∀ p : Post, (∃ n, (p, n) ∈ pcs) ↔
        (p ∈ s.posts ∧ p.is_published = true ∧ p.pub_date ≤ now ∧
          p.category = some cat.id)) ∧
      pcs.Pairwise (fun a b => b.1.pub_date ≤ a.1.pub_date) ∧
      (∀ pc ∈ pcs, pc.2 = commentCount s pc.1.id) ∧
      (∀ page, (paginate paginateBy page pcs).length ≤ 10)) := by
  constructor
  · unfold categoryPostsQueryset
    cases h : s.categories.find? (fun c => c.slug == slug && c.is_published) with
    | none =>
      simp only [true_iff]
      intro c hcmem hcond
      have := List.find?_eq_none.mp h c hcmem
      simp [hcond.1, hcond.2] at this
    | some cat =>
      simp only [reduceCtorEq, false_iff, not_forall]
      have h1 : cat ∈ s.categories := List.mem_of_find?_eq_some h
      have h2 := List.find?_some h
      simp only [Bool.and_eq_true, beq_iff_eq] at h2
      exact ⟨cat, h1, fun hall => hall ⟨h2.1, h2.2⟩⟩
  · intro cat pcs hsome
    unfold categoryPostsQueryset at hsome
    cases h : s.categories.find? (fun c => c.slug == slug && c.is_published) with
    | none => rw [h] at hsome; simp at hsome
    | some cat2 =>
      rw [h] at hsome
      simp only [Option.some.injEq] at hsome
      have hcat : cat2 = cat := congrArg Prod.fst hsome
      subst hcat
      have hpcs : pcs = (((s.posts.filter (fun p =>
          p.is_published && decide (p.pub_date ≤ now) && p.category == some cat2.id)).mergeSort
        pubDateDesc).map (fun p => (p, commentCount s p.id))).filter
          (fun pc => categoryIsPublished s pc.1) := (congrArg Prod.snd hsome).symm
      have h1 : cat2 ∈ s.categories := List.mem_of_find?_eq_some h
      have h2 := List.find?_some h
      simp only [Bool.and_eq_true, beq_iff_eq] at h2
      have hfk : findCategory s cat2.id = some cat2 := findCategory_of_mem s cat2 hids h1
      refine ⟨h1, h2.1, h2.2, ?_, ?_, ?_, ?_⟩
      · intro p
        constructor
        · rintro ⟨n, hn⟩
          rw [hpcs] at hn
          have hn2 := List.mem_filter.mp hn
          obtain ⟨q, hq, hpq⟩ := List.mem_map.mp hn2.1
          have hqp : q = p := congrArg Prod.fst hpq
          subst hqp
          have hq2 := List.mem_filter.mp (List.mem_mergeSort.mp hq)
          have := hq2.2
          simp only [Bool.and_eq_true, decide_eq_true_eq, beq_iff_eq] at this
          exact ⟨hq2.1, this.1.1, this.1.2, this.2⟩
        · rintro ⟨hmem, hpub, hdate, hcatid⟩
          refine ⟨commentCount s p.id, ?_⟩
          rw [hpcs]
          refine List.mem_filter.mpr ⟨List.mem_map.mpr ⟨p, ?_, rfl⟩, ?_⟩
          · refine List.mem_mergeSort.mpr (List.mem_filter.mpr ⟨hmem, ?_⟩)
            simp only [Bool.and_eq_true, decide_eq_true_eq, beq_iff_eq]
            exact ⟨⟨hpub, hdate⟩, hcatid⟩
          · have hco : categoryOf s p = some cat2 := by
              rw [categoryOf, hcatid]
              exact hfk
            simp [categoryIsPublished, hco, h2.2]
      · rw [hpcs]
        refine List.Pairwise.filter _ ?_
        rw [List.pairwise_map]
        have hs := @List.sorted_mergeSort Post pubDateDesc pubDateDesc_trans pubDateDesc_total
          (s.posts.filter (fun p =>
            p.is_published && decide (p.pub_date ≤ now) && p.category == some cat2.id))
        exact hs.imp (fun h => by simpa [pubDateDesc] using h)
      · intro pc hpc
        rw [hpcs] at hpc
        obtain ⟨q, _, hpq⟩ := List.mem_map.mp (List.mem_filter.mp hpc).1
        rw [← hpq]
      · intro page
        simp [paginate, paginateBy, List.length_take]

/-- Witness for C7: in the sample store, whose category ids are
duplicate-free, the listing for the slug news is not Http404 because the
published sample category carries that slug. -/
theorem category_feed_spec_witness :
    categoryPostsQueryset sampleStore 0 "news" = none ↔
      ∀ c ∈ sampleStore.categories, ¬(c.slug = "news" ∧ c.is_published = true) :=
  (category_feed_spec sampleStore 0 "news" (by decide)).1

/-- C1: for a stored post whose category FK resolves, the direct detail
request succeeds exactly when the requester is the author or the post is
published with a published category and a reached pub_date; in every
other case the outcome is Http404 — never PermissionDenied, masking the
existence of the post. -/
theorem post_detail_visibility (s : Store) (now : Int) (r : Option Nat) (pid : Nat)
    (p : Post) (c : Category) (hp : findPost s pid = some p)
    (hc : categoryOf s p = some c) :
    (getObject s now r pid = .found p ↔
      (r = some p.author ∨
        (p.is_published = true ∧ c.is_published = true ∧ p.pub_date ≤ now))) ∧
    (getObject s now r pid = .found p ∨ getObject s now r pid = .notFound) := by
  have hg : getObject s now r pid =
      (if (some p.author == r) = true then DetailResult.found p
       else if p.is_published = true then
         (if c.is_published = true then
            (if p.pub_date ≤ now then DetailResult.found p else DetailResult.notFound)
          else DetailResult.notFound)
       else DetailResult.notFound) := by
    unfold getObject
    rw [hp]
    simp only [hc]
  by_cases hr : some p.author = r
  · subst hr
    simp [hg]
  · have hr2 : ¬(r = some p.author) := fun h => hr h.symm
    have hb : (some p.author == r) = false := by
      simp only [beq_eq_false_iff_ne, ne_eq]
      exact hr
    cases hpub : p.is_published with
    | false => simp [hg, hb, hpub, hr2]
    | true =>
      cases hcp : c.is_published with
      | false => simp [hg, hb, hpub, hcp, hr2]
      | true =>
        by_cases hnow : p.pub_date ≤ now
        · simp [hg, hb, hpub, hcp, hnow]
        · simp [hg, hb, hpub, hcp, hnow, hr2]

/-- Witness for C1: the sample live post with its published category,
requested anonymously, is found because the publication conditions hold;
and the outcome is never PermissionDenied. -/
theorem post_detail_visibility_witness :
    (getObject sampleStore 5 none 1 = .found samplePost ↔
      ((none : Option Nat) = some samplePost.author ∨
        (samplePost.is_published = true ∧ sampleCategory.is_published = true ∧
          samplePost.pub_date ≤ 5))) ∧
    (getObject sampleStore 5 none 1 = .found samplePost ∨
      getObject sampleStore 5 none 1 = .notFound) :=
  post_detail_visibility sampleStore 5 none 1 samplePost sampleCategory
    (by decide) (by decide)

end Blogicum
